import Mathlib

/- Verification of the NEPSE end-of-day scraper (scripts/scraper.py):
a shallow embedding of its normalization, applicability check, historical
merge, allow-list filtering and fallback logic, together with theorems
settling the specified properties.

Dates are ISO `YYYY-MM-DD` strings throughout, so lexicographic string
order coincides with chronological order; `pd.Timestamp.date()` and
`dt.strftime` both yield that date portion, modelled by the `date` field
of `Timestamp`. -/

/-- One symbol's trading data for one date. Field names follow the renamed
DataFrame columns of scraper.py lines 112-115. Prices are nullable
rationals: `pd.to_numeric(errors="coerce")` turns unparsable input into
NaN, modelled as `none`. -/
structure PriceRow where
  Symbol : String
  Date : String
  Open : Option ℚ
  High : Option ℚ
  Low : Option ℚ
  Close : Option ℚ
  Volume : ℤ
deriving DecidableEq, Repr

/-- Raw JSON field value as classified by `pd.to_numeric(errors="coerce")`:
`num q` is any numerically parsable value, `str s` a non-numeric string,
`null` a missing value. -/
inductive RawField where
  | num (q : ℚ)
  | str (s : String)
  | null
deriving DecidableEq, Repr

/-- Embeds `pd.to_numeric(errors="coerce")` (scraper.py lines 116-118):
numeric values pass through, non-numeric strings and missing values become
NaN, modelled as `none`. -/
def toNumeric : RawField → Option ℚ
  | .num q => some q
  | .str _ => none
  | .null => none

/-- Truncation toward zero: the behaviour of numpy `astype(int)` on a
float64 column. -/
def truncRat (q : ℚ) : ℤ :=
  if 0 ≤ q then ⌊q⌋ else -⌊-q⌋

/-- Volume coercion of scraper.py line 116:
`pd.to_numeric(..., errors="coerce").fillna(0).astype(int)`. -/
def parseVolume (f : RawField) : ℤ :=
  match toNumeric f with
  | some q => truncRat q
  | none => 0

/-- The `asOf` timestamp of a scraped snapshot; only its date portion is
used by the code (scraper.py lines 102 and 109). -/
structure Timestamp where
  date : String
deriving DecidableEq, Repr

/-- One raw price entry of the scraped `stock_live.prices` list, with the
fields the code keeps (line 111-115); `stockinfo` is dropped at line 105
and is not modelled. -/
structure RawEntry where
  symbol : String
  openRaw : RawField
  highRaw : RawField
  lowRaw : RawField
  closeRaw : RawField
  volumeRaw : RawField
deriving DecidableEq, Repr

/-- Normalization of one raw entry (scraper.py lines 109-118): the date
comes from the batch-wide `asOf`, prices are coerced permissively, volume
is coerced with missing/non-numeric becoming 0. -/
def normalizeEntry (ts : Timestamp) (e : RawEntry) : PriceRow :=
  { Symbol := e.symbol
    Date := ts.date
    Open := toNumeric e.openRaw
    High := toNumeric e.highRaw
    Low := toNumeric e.lowRaw
    Close := toNumeric e.closeRaw
    Volume := parseVolume e.volumeRaw }

/-- Comparison used at scraper.py line 119 (`sort_values(by="Symbol")`).
String comparison is lexicographic on the character sequence (`.data`),
matching Python's string order. The source's default sort kind is
quicksort, whose relative order of equal symbols is
implementation-defined; mergeSort below is a representative correct sort,
and no theorem other than the sortedness itself depends on the tie order. -/
def symLe (a b : PriceRow) : Bool :=
  decide (a.Symbol.data ≤ b.Symbol.data)

/-- Snapshot Normalizer output (scraper.py lines 104-119): every entry
mapped through `normalizeEntry`, then sorted by symbol. -/
def normalizeBatch (ts : Timestamp) (entries : List RawEntry) : List PriceRow :=
  (entries.map (normalizeEntry ts)).mergeSort symLe

/-- Helper for `pdUnique`: keeps the first occurrence of each value,
carrying the set of values already seen. -/
def pdUniqueAux (seen : List String) : List String → List String
  | [] => []
  | x :: xs =>
    if x ∈ seen then pdUniqueAux seen xs
    else x :: pdUniqueAux (x :: seen) xs

/-- Embeds `pandas.Series.unique` on the Date column (scraper.py line 145):
the distinct values in order of first occurrence. -/
def pdUnique (l : List String) : List String :=
  pdUniqueAux [] l

/-- Line 145: `dates_to_replace = df_fresh_eod["Date"].unique()`. -/
def datesToReplace (fresh : List PriceRow) : List String :=
  pdUnique (fresh.map PriceRow.Date)

/-- Lines 144-147: drop every existing row whose date occurs in the fresh
batch, then append the whole fresh batch. -/
def mergeFresh (existing fresh : List PriceRow) : List PriceRow :=
  existing.filter (fun r => !(datesToReplace fresh).contains r.Date) ++ fresh

/-- Lines 152-154: when the allow-list is non-empty keep only rows whose
symbol it contains; an empty allow-list applies no filtering. -/
def applyAllowList (allowed : List String) (rows : List PriceRow) : List PriceRow :=
  if allowed.isEmpty then rows
  else rows.filter (fun r => allowed.contains r.Symbol)

/-- Comparison of scraper.py line 155:
`sort_values(by=["Symbol", "Date"], ascending=[True, False])`. -/
def rowLe (a b : PriceRow) : Bool :=
  decide (a.Symbol.data < b.Symbol.data ∨ (a.Symbol = b.Symbol ∧ b.Date.data ≤ a.Date.data))

/-- Line 155: final sort by symbol ascending, date descending (pandas
multi-column sort_values is a stable lexsort). -/
def sortRecord (rows : List PriceRow) : List PriceRow :=
  rows.mergeSort rowLe

/-- Lines 142-149: the merged row set before allow-list filtering and
sorting — replacement merge when a main CSV exists, plain copy of the
fresh batch when the file is absent. -/
def mergedBeforeFilter (existing : Option (List PriceRow)) (fresh : List PriceRow) :
    List PriceRow :=
  match existing with
  | some ex => mergeFresh ex fresh
  | none => fresh

/-- The Historical Merge Engine (scraper.py lines 142-155): replacement
merge, then allow-list filtering and the final sort. -/
def mergePipeline (existing : Option (List PriceRow)) (fresh : List PriceRow)
    (allowed : List String) : List PriceRow :=
  sortRecord (applyAllowList allowed (mergedBeforeFilter existing fresh))

/-- Applicability condition of scraper.py line 122: the scraped date is
usable when it is not after today and (today is a trading day or the
scraped date is strictly before today). Dates are ISO strings, so
lexicographic character order coincides with chronological order. -/
def dateOk (scrapedDate today : String) (isTradingDayToday : Bool) : Bool :=
  decide (scrapedDate.data ≤ today.data) &&
    (isTradingDayToday || decide (scrapedDate.data < today.data))

/-- One record of company.json as the code reads it: `c.get(...)` returns
`None` on a missing key, modelled by `Option`. -/
structure Company where
  symbol : String
  instrumentType : Option String
  status : Option String
deriving DecidableEq, Repr

/-- State of the company.json configuration source: absent file, invalid
JSON, or a parsed list of records. -/
inductive ConfigSource where
  | missing
  | invalid
  | parsed (companies : List Company)
deriving DecidableEq, Repr

/-- Embedding of `load_active_equity_symbols` (scraper.py lines 21-35):
symbols of records with instrumentType "Equity" and status "A"; a missing
file or undecodable JSON yields the empty list. -/
def loadActiveEquitySymbols : ConfigSource → List String
  | .missing => []
  | .invalid => []
  | .parsed cs =>
      (cs.filter (fun c => c.instrumentType == some "Equity" && c.status == some "A")).map
        Company.symbol

/-- The `stock_live` payload of a successful fetch: a prices list and an
optional `asOf` timestamp. -/
structure StockLive where
  prices : List RawEntry
  asOf : Option Timestamp
deriving Repr

/-- One run's environment: the fetch outcome (`none` covers a fetch
failure or a payload without `stock_live`), the main CSV contents if the
file exists, the current system date, the trading-day flag of line 83, and
the company.json source. -/
structure RunInput where
  fetched : Option StockLive
  existingCsv : Option (List PriceRow)
  today : String
  isTradingDayToday : Bool
  config : ConfigSource

/-- Observable outcome of one run: the returned record, whether the main
CSV was rewritten, whether a DuckDB load was attempted, and the fatal
error message when the run failed outright. -/
structure RunOutput where
  record : Option (List PriceRow)
  csvWritten : Bool
  duckdbAttempted : Bool
  fatalMsg : Option String
deriving Repr

/-- Lines 91-130: the normalized fresh batch, or `none` when the scrape is
unusable — fetch failure, empty prices list, missing `asOf`, or a date
rejected by the applicability check (line 130 sets `df_fresh_eod = None`). -/
def freshBatch (inp : RunInput) : Option (List PriceRow) :=
  match inp.fetched with
  | none => none
  | some live =>
    if live.prices.isEmpty then none
    else
      match live.asOf with
      | none => none
      | some ts =>
        if dateOk ts.date inp.today inp.isTradingDayToday then
          some (normalizeBatch ts live.prices)
        else none

/-- Fallback path of lines 167-174: with an existing main CSV the run
reads it back unchanged and still attempts the DuckDB load when it is
non-empty; with no CSV the run fails with the final error message and
touches nothing. -/
def fallbackRun (inp : RunInput) : RunOutput :=
  match inp.existingCsv with
  | some ex =>
      { record := some ex
        csvWritten := false
        duckdbAttempted := !ex.isEmpty
        fatalMsg := none }
  | none =>
      { record := none
        csvWritten := false
        duckdbAttempted := false
        fatalMsg := some "No valid data source (fresh scrape or existing CSV) for DuckDB." }

/-- Embedding of `scrape_and_manage_data` (scraper.py lines 81-190) at the
level of the final record and the persistence side effects. -/
def scrapeAndManageData (inp : RunInput) : RunOutput :=
  match freshBatch inp with
  | some fresh =>
    if fresh.isEmpty then fallbackRun inp
    else
      let final := mergePipeline inp.existingCsv fresh (loadActiveEquitySymbols inp.config)
      { record := some final
        csvWritten := true
        duckdbAttempted := !final.isEmpty
        fatalMsg := none }
  | none => fallbackRun inp

/-- Key of the per-(symbol, date) uniqueness invariant. -/
def keyOf (r : PriceRow) : String × String :=
  (r.Symbol, r.Date)

/-- Uniqueness invariant of the historical record: at most one row per
(symbol, date) pair. -/
def PairUnique (rows : List PriceRow) : Prop :=
  (rows.map keyOf).Nodup

example : pdUnique ["b", "a", "b"] = ["b", "a"] := by decide

example :
    mergeFresh
      [⟨"AAA", "2024-01-01", none, none, none, some 90, 10⟩,
       ⟨"AAA", "2024-01-02", none, none, none, some 100, 10⟩]
      [⟨"AAA", "2024-01-02", none, none, none, some 105, 10⟩] =
      [⟨"AAA", "2024-01-01", none, none, none, some 90, 10⟩,
       ⟨"AAA", "2024-01-02", none, none, none, some 105, 10⟩] := by decide

example : dateOk "2024-01-02" "2024-01-02" false = false := by decide

example : dateOk "2024-01-01" "2024-01-02" false = true := by decide

/-! ### Basic lemmas about the embedded operations -/

theorem mem_pdUniqueAux {a : String} :
    ∀ (l seen : List String), a ∈ pdUniqueAux seen l ↔ a ∈ l ∧ a ∉ seen
  | [], seen => by simp [pdUniqueAux]
  | x :: xs, seen => by
    by_cases hx : x ∈ seen
    · rw [pdUniqueAux, if_pos hx, mem_pdUniqueAux xs seen]
      constructor
      · rintro ⟨h1, h2⟩
        exact ⟨List.mem_cons_of_mem _ h1, h2⟩
      · rintro ⟨h1, h2⟩
        rcases List.mem_cons.mp h1 with rfl | h1
        · exact absurd hx h2
        · exact ⟨h1, h2⟩
    · rw [pdUniqueAux, if_neg hx]
      simp only [List.mem_cons, mem_pdUniqueAux xs (x :: seen)]
      constructor
      · rintro (rfl | ⟨h1, h2⟩)
        · exact ⟨Or.inl rfl, hx⟩
        · exact ⟨Or.inr h1, fun hs => h2 (Or.inr hs)⟩
      · rintro ⟨h1, h2⟩
        by_cases hax : a = x
        · exact Or.inl hax
        · rcases h1 with rfl | h1
          · exact absurd rfl hax
          · exact Or.inr ⟨h1, fun hs => hs.elim hax h2⟩

theorem mem_pdUnique {a : String} (l : List String) : a ∈ pdUnique l ↔ a ∈ l := by
  rw [pdUnique, mem_pdUniqueAux]
  simp

theorem pdUniqueAux_eq_nil {seen : List String} :
    ∀ (l : List String), (∀ y ∈ l, y ∈ seen) → pdUniqueAux seen l = []
  | [], _ => rfl
  | x :: xs, h => by
    rw [pdUniqueAux, if_pos (h x (List.mem_cons_self x xs))]
    exact pdUniqueAux_eq_nil xs (fun y hy => h y (List.mem_cons_of_mem _ hy))

theorem pdUnique_const {d : String} {l : List String} (hne : l ≠ [])
    (hall : ∀ y ∈ l, y = d) : pdUnique l = [d] := by
  match l, hne with
  | x :: xs, _ =>
    have hx : x = d := hall x (List.mem_cons_self x xs)
    rw [pdUnique, pdUniqueAux, if_neg (List.not_mem_nil x)]
    rw [pdUniqueAux_eq_nil xs, hx]
    intro y hy
    rw [hall y (List.mem_cons_of_mem _ hy), ← hx]
    exact List.mem_cons_self x []

theorem mem_datesToReplace {d : String} {fresh : List PriceRow} :
    d ∈ datesToReplace fresh ↔ d ∈ fresh.map PriceRow.Date := by
  rw [datesToReplace, mem_pdUnique]

theorem dateKeep_eq (fresh : List PriceRow) (r : PriceRow) :
    (!(datesToReplace fresh).contains r.Date) =
      decide (r.Date ∉ fresh.map PriceRow.Date) := by
  rw [Bool.eq_iff_iff]
  simp [mem_datesToReplace]

/-! ### Order lemmas for the final sort comparison -/

theorem rowLe_iff {a b : PriceRow} :
    rowLe a b = true ↔
      (a.Symbol.data < b.Symbol.data ∨ (a.Symbol = b.Symbol ∧ b.Date.data ≤ a.Date.data)) := by
  simp [rowLe]

theorem rowLe_trans (a b c : PriceRow) (h₁ : rowLe a b = true) (h₂ : rowLe b c = true) :
    rowLe a c = true := by
  rw [rowLe_iff] at h₁ h₂ ⊢
  rcases h₁ with h₁ | ⟨e₁, d₁⟩
  · rcases h₂ with h₂ | ⟨e₂, d₂⟩
    · exact Or.inl (lt_trans h₁ h₂)
    · rw [e₂] at h₁
      exact Or.inl h₁
  · rcases h₂ with h₂ | ⟨e₂, d₂⟩
    · rw [e₁]
      exact Or.inl h₂
    · exact Or.inr ⟨e₁.trans e₂, le_trans d₂ d₁⟩

theorem rowLe_total (a b : PriceRow) : (rowLe a b || rowLe b a) = true := by
  rcases lt_trichotomy a.Symbol.data b.Symbol.data with h | h | h
  · rw [Bool.or_eq_true, rowLe_iff]
    exact Or.inl (Or.inl h)
  · have hs : a.Symbol = b.Symbol := String.ext h
    rcases le_total b.Date.data a.Date.data with hd | hd
    · rw [Bool.or_eq_true, rowLe_iff]
      exact Or.inl (Or.inr ⟨hs, hd⟩)
    · rw [Bool.or_eq_true]
      right
      rw [rowLe_iff]
      exact Or.inr ⟨hs.symm, hd⟩
  · rw [Bool.or_eq_true]
    right
    rw [rowLe_iff]
    exact Or.inl h

theorem rowLe_antisymm_key {a b : PriceRow} (h₁ : rowLe a b = true) (h₂ : rowLe b a = true) :
    keyOf a = keyOf b := by
  rw [rowLe_iff] at h₁ h₂
  rcases h₁ with h₁ | ⟨e₁, d₁⟩
  · rcases h₂ with h₂ | ⟨e₂, d₂⟩
    · exact absurd (lt_trans h₁ h₂) (lt_irrefl _)
    · rw [e₂] at h₁
      exact absurd h₁ (lt_irrefl _)
  · rcases h₂ with h₂ | ⟨e₂, d₂⟩
    · rw [e₁] at h₂
      exact absurd h₂ (lt_irrefl _)
    · have hd : a.Date = b.Date := String.ext (le_antisymm d₂ d₁)
      rw [keyOf, keyOf, e₁, hd]

theorem sortRecord_perm (rows : List PriceRow) : (sortRecord rows).Perm rows :=
  List.mergeSort_perm rows rowLe

theorem sorted_sortRecord (rows : List PriceRow) :
    (sortRecord rows).Pairwise (fun a b => rowLe a b = true) :=
  List.sorted_mergeSort rowLe_trans (fun a b => rowLe_total a b) rows

theorem eq_of_perm_sorted_unique {l₁ l₂ : List PriceRow} (hp : l₁.Perm l₂)
    (hs₁ : l₁.Pairwise fun a b => rowLe a b = true)
    (hs₂ : l₂.Pairwise fun a b => rowLe a b = true)
    (hk : (l₁.map keyOf).Nodup) : l₁ = l₂ := by
  have hk₂ : (l₂.map keyOf).Nodup := ((hp.map keyOf).nodup_iff).mp hk
  have hne₁ : l₁.Pairwise fun a b => keyOf a ≠ keyOf b := List.pairwise_map.mp hk
  have hne₂ : l₂.Pairwise fun a b => keyOf a ≠ keyOf b := List.pairwise_map.mp hk₂
  haveI : IsAntisymm PriceRow (fun a b => rowLe a b = true ∧ keyOf a ≠ keyOf b) := by
    constructor
    rintro a b ⟨hab, hk'⟩ ⟨hba, _⟩
    exact absurd (rowLe_antisymm_key hab hba) hk'
  exact List.eq_of_perm_of_sorted hp (hs₁.and hne₁) (hs₂.and hne₂)

/-! ### Counting lemmas for the merge pipeline -/

theorem count_sortRecord (rows : List PriceRow) (r : PriceRow) :
    (sortRecord rows).count r = rows.count r :=
  (sortRecord_perm rows).count_eq r

theorem count_fresh_of_not_mem {fresh : List PriceRow} {r : PriceRow}
    (h : r.Date ∉ fresh.map PriceRow.Date) : fresh.count r = 0 := by
  refine List.count_eq_zero_of_not_mem (fun hr => h ?_)
  exact List.mem_map_of_mem PriceRow.Date hr

theorem count_mergeFresh (ex fresh : List PriceRow) (r : PriceRow) :
    (mergeFresh ex fresh).count r =
      (if r.Date ∈ fresh.map PriceRow.Date then 0 else ex.count r) + fresh.count r := by
  rw [mergeFresh, List.count_append]
  congr 1
  by_cases h : r.Date ∈ fresh.map PriceRow.Date
  · rw [if_pos h]
    refine List.count_eq_zero_of_not_mem (fun hr => ?_)
    have := (List.mem_filter.mp hr).2
    rw [dateKeep_eq] at this
    exact absurd h (by simpa using this)
  · rw [if_neg h]
    refine List.count_filter ?_
    rw [dateKeep_eq]
    simpa using h

theorem count_applyAllowList (allowed : List String) (rows : List PriceRow) (r : PriceRow) :
    (applyAllowList allowed rows).count r =
      if allowed = [] ∨ r.Symbol ∈ allowed then rows.count r else 0 := by
  rw [applyAllowList]
  by_cases he : allowed.isEmpty
  · rw [if_pos he, if_pos (Or.inl (List.isEmpty_iff.mp he))]
  · rw [if_neg he]
    by_cases hm : r.Symbol ∈ allowed
    · rw [if_pos (Or.inr hm)]
      refine List.count_filter ?_
      simpa using hm
    · rw [if_neg ?_]
      · refine List.count_eq_zero_of_not_mem (fun hr => ?_)
        have := (List.mem_filter.mp hr).2
        exact hm (by simpa using this)
      · rintro (rfl | h)
        · exact he rfl
        · exact hm h

theorem applyAllowList_sublist (allowed : List String) (rows : List PriceRow) :
    (applyAllowList allowed rows).Sublist rows := by
  rw [applyAllowList]
  by_cases he : allowed.isEmpty
  · rw [if_pos he]
  · rw [if_neg he]
    exact List.filter_sublist rows

/-! ### Lemmas about the normalized batch -/

theorem mem_normalizeBatch {ts : Timestamp} {entries : List RawEntry} {r : PriceRow} :
    r ∈ normalizeBatch ts entries ↔ r ∈ entries.map (normalizeEntry ts) := by
  rw [normalizeBatch, List.mem_mergeSort]

theorem length_normalizeBatch (ts : Timestamp) (entries : List RawEntry) :
    (normalizeBatch ts entries).length = entries.length := by
  rw [normalizeBatch, List.length_mergeSort, List.length_map]

theorem date_normalizeBatch {ts : Timestamp} {entries : List RawEntry} :
    ∀ r ∈ normalizeBatch ts entries, r.Date = ts.date := by
  intro r hr
  rcases List.mem_map.mp (mem_normalizeBatch.mp hr) with ⟨e, _, rfl⟩
  rfl

/-! ### Preservation of the (symbol, date) uniqueness invariant -/

theorem pairUnique_iff_pairwise {l : List PriceRow} :
    PairUnique l ↔ l.Pairwise fun a b => keyOf a ≠ keyOf b :=
  List.pairwise_map

theorem pairwise_key_mergeFresh {ex fresh : List PriceRow}
    (hex : PairUnique ex)
    (hsym : (fresh.map PriceRow.Symbol).Nodup) :
    (mergeFresh ex fresh).Pairwise fun a b => keyOf a ≠ keyOf b := by
  rw [mergeFresh, List.pairwise_append]
  refine ⟨?_, ?_, ?_⟩
  · exact (pairUnique_iff_pairwise.mp hex).sublist (List.filter_sublist ex)
  · refine (List.pairwise_map.mp hsym).imp ?_
    intro a b hab hk
    exact hab (congrArg Prod.fst hk)
  · intro a ha b hb
    have hpa := (List.mem_filter.mp ha).2
    rw [dateKeep_eq] at hpa
    have hnd : a.Date ∉ fresh.map PriceRow.Date := by simpa using hpa
    intro hk
    have : a.Date = b.Date := congrArg Prod.snd hk
    rw [this] at hnd
    exact hnd (List.mem_map_of_mem PriceRow.Date hb)

theorem pairUnique_mergePipeline {ex fresh : List PriceRow}
    (allowed : List String)
    (hex : PairUnique ex)
    (hsym : (fresh.map PriceRow.Symbol).Nodup) :
    PairUnique (mergePipeline (some ex) fresh allowed) := by
  rw [pairUnique_iff_pairwise, mergePipeline]
  have hsymm : ∀ {x y : PriceRow}, keyOf x ≠ keyOf y → keyOf y ≠ keyOf x :=
    fun h => fun he => h he.symm
  rw [(sortRecord_perm _).pairwise_iff hsymm]
  exact ((pairwise_key_mergeFresh hex hsym).sublist (applyAllowList_sublist _ _))

/-! ### Support lemmas for the run-level theorems -/

theorem dateOk_iff {d t : String} {trading : Bool} :
    dateOk d t trading = true ↔
      (d.data ≤ t.data ∧ (trading = true ∨ d.data < t.data)) := by
  rw [dateOk]
  simp

theorem normalizeBatch_ne_nil {ts : Timestamp} {entries : List RawEntry}
    (h : entries ≠ []) : normalizeBatch ts entries ≠ [] := by
  intro hnil
  have hlen := length_normalizeBatch ts entries
  rw [hnil] at hlen
  exact h (List.length_eq_zero.mp hlen.symm)

theorem freshBatch_eq (inp : RunInput) (live : StockLive) (ts : Timestamp)
    (hf : inp.fetched = some live) (hp : live.prices ≠ []) (ha : live.asOf = some ts) :
    freshBatch inp =
      if dateOk ts.date inp.today inp.isTradingDayToday
      then some (normalizeBatch ts live.prices) else none := by
  rcases hl : live.prices with _ | ⟨e, es⟩
  · exact absurd hl hp
  · simp only [freshBatch, hf, ha, hl, List.isEmpty_cons, Bool.false_eq_true, if_false]

theorem fallbackRun_record (inp : RunInput) : (fallbackRun inp).record = inp.existingCsv := by
  cases h : inp.existingCsv <;> simp [fallbackRun, h]

theorem fallbackRun_csv (inp : RunInput) : (fallbackRun inp).csvWritten = false := by
  cases h : inp.existingCsv <;> simp [fallbackRun, h]

theorem applyAllowList_nil (rows : List PriceRow) : applyAllowList [] rows = rows :=
  rfl

/-! ### C1 — date-replacement merge -/

/-- C1: for an existing record and a non-empty fresh batch, the merge
result before allow-list filtering and sorting is exactly the existing
rows whose date is not among the distinct dates of the fresh batch, kept
unchanged in their original order, followed by all fresh rows. -/
theorem mergeFresh_replaces_fresh_dates (existing fresh : List PriceRow)
    (_hne : fresh ≠ []) :
    mergeFresh existing fresh =
      existing.filter (fun r => decide (r.Date ∉ fresh.map PriceRow.Date)) ++ fresh := by
  rw [mergeFresh]
  congr 1
  exact List.filter_congr (fun a _ => dateKeep_eq fresh a)

/-- Witness for C1 at the spec's concrete example: fresh (AAA, 2024-01-02,
close=105) replaces the existing 2024-01-02 row and leaves the 2024-01-01
row intact. -/
theorem mergeFresh_replaces_fresh_dates_witness :
    mergeFresh
        [⟨"AAA", "2024-01-01", none, none, none, some 90, 0⟩,
         ⟨"AAA", "2024-01-02", none, none, none, some 100, 0⟩]
        [⟨"AAA", "2024-01-02", none, none, none, some 105, 0⟩] =
      [⟨"AAA", "2024-01-01", none, none, none, some 90, 0⟩,
       ⟨"AAA", "2024-01-02", none, none, none, some 105, 0⟩] := by
  rw [mergeFresh_replaces_fresh_dates _ _ (by decide)]
  decide

/-! ### C5 — allow-list filtering of the full merged set -/

/-- C5: the final record keeps each merged row (fresh or historical alike)
exactly when the allow-list is empty — no filtering — or contains the
row's symbol; multiplicities are preserved, excluded symbols drop to
zero occurrences. -/
theorem allowList_filter_exact (existing : Option (List PriceRow)) (fresh : List PriceRow)
    (allowed : List String) (r : PriceRow) :
    (mergePipeline existing fresh allowed).count r =
      if allowed = [] ∨ r.Symbol ∈ allowed
      then (mergedBeforeFilter existing fresh).count r
      else 0 := by
  rw [mergePipeline, count_sortRecord, count_applyAllowList]

/-! ### C10 — a normalized batch has exactly one distinct date -/

/-- C10: every row of a normalized batch carries the date derived from the
batch-wide asOf timestamp, and for a non-empty entries list the set of
dates the merge engine replaces is exactly that singleton. -/
theorem normalizeBatch_single_date (ts : Timestamp) (entries : List RawEntry) :
    (∀ r ∈ normalizeBatch ts entries, r.Date = ts.date) ∧
      (entries ≠ [] → datesToReplace (normalizeBatch ts entries) = [ts.date]) := by
  refine ⟨date_normalizeBatch, fun hne => ?_⟩
  rw [datesToReplace]
  refine pdUnique_const ?_ ?_
  · intro h
    have hlen := congrArg List.length h
    rw [List.length_map, length_normalizeBatch] at hlen
    exact hne (List.length_eq_zero.mp hlen)
  · intro y hy
    rcases List.mem_map.mp hy with ⟨r, hr, rfl⟩
    exact date_normalizeBatch r hr

/-- Witness for C10: a one-entry batch normalized under asOf date
2024-01-02 yields exactly the replacement date set [2024-01-02]. -/
theorem normalizeBatch_single_date_witness :
    datesToReplace
        (normalizeBatch ⟨"2024-01-02"⟩
          [⟨"AAA", RawField.num 100, RawField.num 110, RawField.num 95,
            RawField.num 105, RawField.num 1000⟩]) = ["2024-01-02"] :=
  (normalizeBatch_single_date ⟨"2024-01-02"⟩ _).2 (by decide)

/-! ### C2 — applicability of the scraped date -/

/-- C2: with a fetched payload carrying non-empty prices and an asOf
timestamp, the scraped snapshot is merged into the main CSV exactly when
its derived date is not after the current date and (today is a trading day
or the date is strictly earlier); otherwise the fresh batch is invalidated
and the run's record is the existing one unchanged. -/
theorem snapshot_applicability (inp : RunInput) (live : StockLive) (ts : Timestamp)
    (hf : inp.fetched = some live) (hp : live.prices ≠ []) (ha : live.asOf = some ts) :
    ((scrapeAndManageData inp).csvWritten = true ↔
      (ts.date.data ≤ inp.today.data ∧
        (inp.isTradingDayToday = true ∨ ts.date.data < inp.today.data))) ∧
    (¬ (ts.date.data ≤ inp.today.data ∧
          (inp.isTradingDayToday = true ∨ ts.date.data < inp.today.data)) →
      (scrapeAndManageData inp).record = inp.existingCsv) := by
  have hfb := freshBatch_eq inp live ts hf hp ha
  by_cases hd : dateOk ts.date inp.today inp.isTradingDayToday = true
  · rw [if_pos hd] at hfb
    have hne : ¬ (normalizeBatch ts live.prices).isEmpty = true := by
      simpa [List.isEmpty_iff] using @normalizeBatch_ne_nil ts live.prices hp
    have hrun :
        (scrapeAndManageData inp).csvWritten = true := by
      simp only [scrapeAndManageData, hfb]
      rw [if_neg hne]
    exact ⟨⟨fun _ => dateOk_iff.mp hd, fun _ => hrun⟩,
      fun hc => absurd (dateOk_iff.mp hd) hc⟩
  · rw [if_neg hd] at hfb
    have hrun : scrapeAndManageData inp = fallbackRun inp := by
      simp only [scrapeAndManageData, hfb]
    rw [hrun]
    refine ⟨⟨fun hw => ?_, fun hc => absurd (dateOk_iff.mpr hc) hd⟩,
      fun _ => fallbackRun_record inp⟩
    rw [fallbackRun_csv] at hw
    exact absurd hw (by simp)

/-- Witness for C2: a backfill snapshot (scraped date 2024-01-01, today
2024-01-02, non-trading day) is accepted and the main CSV is rewritten. -/
theorem snapshot_applicability_witness :
    (scrapeAndManageData
        { fetched := some
            { prices := [⟨"AAA", RawField.num 100, RawField.num 110, RawField.num 95,
                RawField.num 105, RawField.num 1000⟩]
              asOf := some ⟨"2024-01-01"⟩ }
          existingCsv := none
          today := "2024-01-02"
          isTradingDayToday := false
          config := ConfigSource.missing }).csvWritten = true :=
  (snapshot_applicability _ _ _ rfl (by decide) rfl).1.mpr
    ⟨by decide, Or.inr (by decide)⟩

/-! ### C3 — preservation of (symbol, date) uniqueness -/

/-- C3: if the existing record has unique (symbol, date) pairs and the
fresh batch has at most one row per symbol with all rows sharing one date,
the merged record produced by the merge engine again has at most one row
per (symbol, date) pair. -/
theorem merge_preserves_pairUnique (ex fresh : List PriceRow) (allowed : List String)
    (d0 : String) (hex : PairUnique ex) (_hdates : ∀ r ∈ fresh, r.Date = d0)
    (hsym : (fresh.map PriceRow.Symbol).Nodup) :
    PairUnique (mergePipeline (some ex) fresh allowed) :=
  pairUnique_mergePipeline allowed hex hsym

/-- Witness for C3: a two-symbol fresh batch for 2024-01-02 merged into a
one-row record keeps (symbol, date) pairs unique. -/
theorem merge_preserves_pairUnique_witness :
    PairUnique
      (mergePipeline (some [⟨"AAA", "2024-01-01", none, none, none, none, 0⟩])
        [⟨"AAA", "2024-01-02", none, none, none, some 105, 0⟩,
         ⟨"BBB", "2024-01-02", none, none, none, some 50, 0⟩]
        ["AAA", "BBB"]) :=
  merge_preserves_pairUnique _ _ _ "2024-01-02"
    (by unfold PairUnique; decide) (by decide) (by decide)

/-! ### C6 — permissive numeric coercion -/

/-- Classifier of raw field values that `pd.to_numeric` parses. -/
def RawField.isNumericValue : RawField → Bool
  | .num _ => true
  | .str _ => false
  | .null => false

/-- C6 counterexample: a numerically parsable negative raw volume is
stored negative, so the stored volume is not always a non-negative
integer. -/
theorem parseVolume_negative_counterexample :
    parseVolume (RawField.num (-5)) < 0 := by decide

/-- C6 (amended): normalization is permissive — a non-numeric open, high,
low or close becomes null, a non-numeric or missing volume becomes 0, and
the stored volume (an integer) is non-negative whenever the raw numeric
volume value is non-negative. -/
theorem normalizeEntry_numeric_coercion (ts : Timestamp) (e : RawEntry) :
    (e.openRaw.isNumericValue = false → (normalizeEntry ts e).Open = none) ∧
    (e.highRaw.isNumericValue = false → (normalizeEntry ts e).High = none) ∧
    (e.lowRaw.isNumericValue = false → (normalizeEntry ts e).Low = none) ∧
    (e.closeRaw.isNumericValue = false → (normalizeEntry ts e).Close = none) ∧
    (e.volumeRaw.isNumericValue = false → (normalizeEntry ts e).Volume = 0) ∧
    (∀ q : ℚ, e.volumeRaw = RawField.num q → 0 ≤ q → 0 ≤ (normalizeEntry ts e).Volume) := by
  refine ⟨?_, ?_, ?_, ?_, ?_, ?_⟩
  · intro h
    cases ho : e.openRaw
    case str s => simp [normalizeEntry, toNumeric, ho]
    case null => simp [normalizeEntry, toNumeric, ho]
    case num q => rw [ho, RawField.isNumericValue] at h; cases h
  · intro h
    cases hv : e.highRaw
    case str s => simp [normalizeEntry, toNumeric, hv]
    case null => simp [normalizeEntry, toNumeric, hv]
    case num q => rw [hv, RawField.isNumericValue] at h; cases h
  · intro h
    cases hv : e.lowRaw
    case str s => simp [normalizeEntry, toNumeric, hv]
    case null => simp [normalizeEntry, toNumeric, hv]
    case num q => rw [hv, RawField.isNumericValue] at h; cases h
  · intro h
    cases hv : e.closeRaw
    case str s => simp [normalizeEntry, toNumeric, hv]
    case null => simp [normalizeEntry, toNumeric, hv]
    case num q => rw [hv, RawField.isNumericValue] at h; cases h
  · intro h
    cases hv : e.volumeRaw
    case str s => simp [normalizeEntry, parseVolume, toNumeric, hv]
    case null => simp [normalizeEntry, parseVolume, toNumeric, hv]
    case num q => rw [hv, RawField.isNumericValue] at h; cases h
  · intro q hq hnn
    have : (normalizeEntry ts e).Volume = truncRat q := by
      simp [normalizeEntry, parseVolume, toNumeric, hq]
    rw [this, truncRat, if_pos hnn]
    exact Int.le_floor.mpr (by simpa using hnn)

/-- Witness for C6 (amended): a non-numeric close becomes null and a
missing volume becomes 0, without failing. -/
theorem normalizeEntry_numeric_coercion_witness :
    (normalizeEntry ⟨"2024-01-02"⟩
        ⟨"AAA", RawField.num 100, RawField.num 110, RawField.num 95,
         RawField.str "N/A", RawField.null⟩).Close = none ∧
    (normalizeEntry ⟨"2024-01-02"⟩
        ⟨"AAA", RawField.num 100, RawField.num 110, RawField.num 95,
         RawField.str "N/A", RawField.null⟩).Volume = 0 :=
  ⟨(normalizeEntry_numeric_coercion ⟨"2024-01-02"⟩ _).2.2.2.1 (by decide),
   (normalizeEntry_numeric_coercion ⟨"2024-01-02"⟩ _).2.2.2.2.1 (by decide)⟩

/-! ### C7 — fallback without a usable fresh batch -/

/-- C7: when no usable fresh batch exists, a run with a persisted record
returns it unchanged without rewriting the CSV; with no persisted record
either, the run fails with the error message, writes nothing and syncs
nothing. -/
theorem run_without_fresh (inp : RunInput) (h : freshBatch inp = none) :
    (∀ ex, inp.existingCsv = some ex →
        (scrapeAndManageData inp).record = some ex ∧
        (scrapeAndManageData inp).csvWritten = false ∧
        (scrapeAndManageData inp).fatalMsg = none) ∧
    (inp.existingCsv = none →
        (scrapeAndManageData inp).record = none ∧
        (scrapeAndManageData inp).fatalMsg =
          some "No valid data source (fresh scrape or existing CSV) for DuckDB." ∧
        (scrapeAndManageData inp).csvWritten = false ∧
        (scrapeAndManageData inp).duckdbAttempted = false) := by
  have hrun : scrapeAndManageData inp = fallbackRun inp := by
    simp only [scrapeAndManageData, h]
  rw [hrun]
  constructor
  · intro ex hex
    simp [fallbackRun, hex]
  · intro hex
    simp [fallbackRun, hex]

/-- Witness for C7: fetch failure with no persisted CSV is a total
failure — no record, the error message, nothing written or synced. -/
theorem run_without_fresh_witness :
    (scrapeAndManageData
        { fetched := none, existingCsv := none, today := "2024-01-02",
          isTradingDayToday := true, config := ConfigSource.missing }).record = none ∧
    (scrapeAndManageData
        { fetched := none, existingCsv := none, today := "2024-01-02",
          isTradingDayToday := true, config := ConfigSource.missing }).fatalMsg =
      some "No valid data source (fresh scrape or existing CSV) for DuckDB." ∧
    (scrapeAndManageData
        { fetched := none, existingCsv := none, today := "2024-01-02",
          isTradingDayToday := true, config := ConfigSource.missing }).csvWritten = false ∧
    (scrapeAndManageData
        { fetched := none, existingCsv := none, today := "2024-01-02",
          isTradingDayToday := true, config := ConfigSource.missing }).duckdbAttempted =
      false :=
  (run_without_fresh
      { fetched := none, existingCsv := none, today := "2024-01-02",
        isTradingDayToday := true, config := ConfigSource.missing } rfl).2 rfl

/-! ### C9 — missing or invalid allow-list configuration -/

/-- C9: a missing or undecodable company.json makes the loader return the
empty list, so a run that merges a fresh batch applies no symbol filtering
at all — the final record is the sorted merged set itself and every merged
row is retained — and the run does not fail. -/
theorem bad_config_skips_filtering (inp : RunInput) (fresh : List PriceRow)
    (hc : inp.config = ConfigSource.missing ∨ inp.config = ConfigSource.invalid)
    (hf : freshBatch inp = some fresh) (hne : fresh ≠ []) :
    loadActiveEquitySymbols inp.config = [] ∧
    (scrapeAndManageData inp).record =
      some (sortRecord (mergedBeforeFilter inp.existingCsv fresh)) ∧
    (∀ r ∈ mergedBeforeFilter inp.existingCsv fresh,
        r ∈ sortRecord (mergedBeforeFilter inp.existingCsv fresh)) ∧
    (scrapeAndManageData inp).fatalMsg = none := by
  have hload : loadActiveEquitySymbols inp.config = [] := by
    rcases hc with h | h <;> rw [h] <;> rfl
  have hie : ¬ fresh.isEmpty = true := by simpa [List.isEmpty_iff] using hne
  have hrec : (scrapeAndManageData inp).record =
      some (mergePipeline inp.existingCsv fresh (loadActiveEquitySymbols inp.config)) := by
    simp only [scrapeAndManageData, hf]
    rw [if_neg hie]
  have hmsg : (scrapeAndManageData inp).fatalMsg = none := by
    simp only [scrapeAndManageData, hf]
    rw [if_neg hie]
  refine ⟨hload, ?_, ?_, hmsg⟩
  · rw [hrec, hload, mergePipeline, applyAllowList_nil]
  · intro r hr
    exact (sortRecord_perm _).mem_iff.mpr hr

/-- Witness for C9: with company.json missing, a merged run keeps every
row and does not fail. -/
theorem bad_config_skips_filtering_witness :
    (scrapeAndManageData
        { fetched := some
            { prices := [⟨"AAA", RawField.num 100, RawField.num 110, RawField.num 95,
                RawField.num 105, RawField.num 1000⟩]
              asOf := some ⟨"2024-01-01"⟩ }
          existingCsv := some [⟨"BBB", "2023-12-31", none, none, none, some 7, 1⟩]
          today := "2024-01-02"
          isTradingDayToday := false
          config := ConfigSource.missing }).fatalMsg = none :=
  (bad_config_skips_filtering
      { fetched := some
          { prices := [⟨"AAA", RawField.num 100, RawField.num 110, RawField.num 95,
              RawField.num 105, RawField.num 1000⟩]
            asOf := some ⟨"2024-01-01"⟩ }
        existingCsv := some [⟨"BBB", "2023-12-31", none, none, none, some 7, 1⟩]
        today := "2024-01-02"
        isTradingDayToday := false
        config := ConfigSource.missing }
      (normalizeBatch ⟨"2024-01-01"⟩
        [⟨"AAA", RawField.num 100, RawField.num 110, RawField.num 95,
          RawField.num 105, RawField.num 1000⟩])
      (Or.inl rfl) rfl (normalizeBatch_ne_nil (by decide))).2.2.2

/-! ### C4 — idempotence of the merge -/

theorem mergedBeforeFilter_some (ex fresh : List PriceRow) :
    mergedBeforeFilter (some ex) fresh = mergeFresh ex fresh :=
  rfl

theorem merge_idem_aux (ex fresh : List PriceRow) (allowed : List String)
    (hex : PairUnique ex) (hsym : (fresh.map PriceRow.Symbol).Nodup) :
    sortRecord (applyAllowList allowed
        (mergeFresh (sortRecord (applyAllowList allowed (mergeFresh ex fresh))) fresh)) =
      sortRecord (applyAllowList allowed (mergeFresh ex fresh)) := by
  have hcount1 : ∀ r : PriceRow,
      (sortRecord (applyAllowList allowed (mergeFresh ex fresh))).count r =
        if allowed = [] ∨ r.Symbol ∈ allowed then (mergeFresh ex fresh).count r else 0 := by
    intro r
    rw [count_sortRecord, count_applyAllowList]
  have hperm : (applyAllowList allowed
        (mergeFresh (sortRecord (applyAllowList allowed (mergeFresh ex fresh))) fresh)).Perm
      (applyAllowList allowed (mergeFresh ex fresh)) := by
    rw [List.perm_iff_count]
    intro r
    rw [count_applyAllowList, count_applyAllowList]
    by_cases hal : allowed = [] ∨ r.Symbol ∈ allowed
    · rw [if_pos hal, if_pos hal, count_mergeFresh, count_mergeFresh]
      by_cases hpd : r.Date ∈ fresh.map PriceRow.Date
      · rw [if_pos hpd, if_pos hpd]
      · rw [if_neg hpd, if_neg hpd, hcount1 r, if_pos hal, count_mergeFresh, if_neg hpd,
          count_fresh_of_not_mem hpd]
    · rw [if_neg hal, if_neg hal]
  have hperm2 : (sortRecord (applyAllowList allowed
        (mergeFresh (sortRecord (applyAllowList allowed (mergeFresh ex fresh))) fresh))).Perm
      (sortRecord (applyAllowList allowed (mergeFresh ex fresh))) :=
    (sortRecord_perm _).trans (hperm.trans (sortRecord_perm _).symm)
  have hk : ((sortRecord (applyAllowList allowed (mergeFresh ex fresh))).map keyOf).Nodup :=
    pairUnique_mergePipeline allowed hex hsym
  exact (eq_of_perm_sorted_unique hperm2.symm (sorted_sortRecord _) (sorted_sortRecord _)
    hk).symm

/-- C4: merging the same normalized fresh batch twice in succession (with
the same allow-list) yields the same final historical record as merging it
once — the second merge removes the rows the first merge added for the
batch's date and re-inserts identical rows. -/
theorem merge_idempotent (ex fresh : List PriceRow) (allowed : List String) (d0 : String)
    (hex : PairUnique ex) (_hdates : ∀ r ∈ fresh, r.Date = d0)
    (hsym : (fresh.map PriceRow.Symbol).Nodup) :
    mergePipeline (some (mergePipeline (some ex) fresh allowed)) fresh allowed =
      mergePipeline (some ex) fresh allowed := by
  simp only [mergePipeline, mergedBeforeFilter_some]
  exact merge_idem_aux ex fresh allowed hex hsym

/-- Witness for C4: re-merging the fresh batch for 2024-01-02 into the
already merged record changes nothing. -/
theorem merge_idempotent_witness :
    mergePipeline
        (some (mergePipeline (some [⟨"AAA", "2024-01-01", none, none, none, none, 0⟩])
          [⟨"AAA", "2024-01-02", none, none, none, some 105, 0⟩] ["AAA"]))
        [⟨"AAA", "2024-01-02", none, none, none, some 105, 0⟩] ["AAA"] =
      mergePipeline (some [⟨"AAA", "2024-01-01", none, none, none, none, 0⟩])
        [⟨"AAA", "2024-01-02", none, none, none, some 105, 0⟩] ["AAA"] :=
  merge_idempotent _ _ _ "2024-01-02" (by unfold PairUnique; decide) (by decide) (by decide)

/-! ### Characterization of a missing fresh batch -/

/-- The fresh batch is absent exactly on the four unusable-scrape paths:
fetch failure, empty prices list, missing asOf timestamp, or a date
rejected by the applicability check. -/
theorem freshBatch_eq_none_iff (inp : RunInput) :
    freshBatch inp = none ↔
      (inp.fetched = none ∨
        ∃ live, inp.fetched = some live ∧
          (live.prices = [] ∨ live.asOf = none ∨
            ∃ ts, live.asOf = some ts ∧
              dateOk ts.date inp.today inp.isTradingDayToday = false)) := by
  cases hf : inp.fetched with
  | none => simp [freshBatch, hf]
  | some live =>
    cases hl : live.prices with
    | nil => simp [freshBatch, hf, hl]
    | cons e es =>
      cases ha : live.asOf with
      | none => simp [freshBatch, hf, hl, ha]
      | some ts =>
        by_cases hd : dateOk ts.date inp.today inp.isTradingDayToday = true
        · simp [freshBatch, hf, hl, ha, hd]
        · simp only [Bool.not_eq_true] at hd
          simp [freshBatch, hf, hl, ha, hd]
